import Mathlib

/-!
Verification of the metric-normalization core of the openzl-row-col
benchmark scripts (`scripts/paper_plots.py`, `scripts/visualize_batch_size.py`,
`scripts/presentation_plots.py`).

Records are shallowly embedded: a benchmark result dict becomes a `Record`
structure; byte counts, times and throughputs become rationals (`ℚ`), so
Python's real-valued `/` is modelled exactly; Python `dict`s keyed by batch
size become association lists with last-write-wins insertion; Python's stable
`list.sort` becomes the stable `List.insertionSort`; code that can raise
`KeyError` is embedded in `Option`.
-/

namespace RowCol

/-- Timing/throughput statistics of one direction (the `compression` /
`decompression` sub-dicts of a method result). -/
structure Stats where
  avg_ms : ℚ
  std_ms : ℚ
  throughput_mbps : ℚ
  throughput_std_mbps : ℚ
deriving DecidableEq, Repr

/-- One per-algorithm sub-result of a record (the `zstd` / `openzl` entries). -/
structure MethodResult where
  total_bytes : ℚ
  compression_ratio : ℚ
  compression : Stats
  decompression : Stats
deriving DecidableEq, Repr

/-- One raw measurement record.  The structural fields (`dataset`,
`batch_size`, `compressor`, `total_uncompressed_bytes`) are always present;
the per-algorithm sub-dicts are the optional keys, kept as an association
list so that `method in r` becomes a `lookup`. -/
structure Record where
  dataset : String
  batch_size : Nat
  compressor : String
  total_uncompressed_bytes : ℚ
  methods : List (String × MethodResult)
deriving DecidableEq, Repr

/-- The `'compression'` / `'decompression'` selector strings. -/
inductive TimeType where
  | compression
  | decompression
deriving DecidableEq, Repr

/-- `r[method][time_type]` once the method entry is at hand. -/
def MethodResult.timeStats (mr : MethodResult) : TimeType → Stats
  | .compression => mr.compression
  | .decompression => mr.decompression

/-- `method in r` / `r.get(method)` on the per-algorithm entries. -/
def Record.getMethod (r : Record) (method : String) : Option MethodResult :=
  (r.methods.find? (fun p => p.1 = method)).map Prod.snd

/-- Python `d[k] = v` on a dict modelled as an association list (keys are
kept unique): overwrite in place if the key exists, else append at the end. -/
def dictInsert : List (Nat × ℚ) → Nat → ℚ → List (Nat × ℚ)
  | [], k, v => [(k, v)]
  | p :: ds, k, v => if p.1 = k then (k, v) :: ds else p :: dictInsert ds k v

/-- Python `d[k]` / `k in d` as one partial lookup. -/
def dictLookup (d : List (Nat × ℚ)) (k : Nat) : Option ℚ :=
  (d.find? (fun p => p.1 = k)).map Prod.snd

/-- `baseline = {}; for r in results: if p r: baseline[r.batch_size] = r.bytes`. -/
def buildBaseline (results : List Record) (p : Record → Bool) : List (Nat × ℚ) :=
  results.foldl
    (fun b r => if p r then dictInsert b r.batch_size r.total_uncompressed_bytes else b) []

/-- The reference ("Proto") variant families of `get_proto_baseline`. -/
def protoFamilies : List String := ["otlp_metrics", "otlp_traces", "tpch_proto"]

/-- The OTLP reference families used for the OTAP branch baselines. -/
def otlpFamilies : List String := ["otlp_metrics", "otlp_traces"]

/-- Derived OTAP families of `paper_plots.extract_compression_ratio_series`. -/
def otapFamilies : List String :=
  ["otap", "otapnodict", "otapdictperfile", "otapnosort", "otapnodedup"]

/-- Derived Arrow families (same list in both scripts). -/
def arrowFamilies : List String := ["arrow", "arrownodict", "arrowdictperfile"]

/-- `paper_plots.get_proto_baseline`: Proto raw bytes lookup by batch size. -/
def get_proto_baseline (results : List Record) (dataset : String) : List (Nat × ℚ) :=
  buildBaseline results (fun r => decide (r.dataset = dataset ∧ r.compressor ∈ protoFamilies))

/-- `filtered.sort(key=lambda x: x["batch_size"])`.  Python's sort is stable,
and any two stable sorts on the same key agree, so the stable
`insertionSort` models it faithfully. -/
def sortByBatch (l : List Record) : List Record :=
  l.insertionSort (fun a b => a.batch_size ≤ b.batch_size)

/-- The `(dataset, compressor)` filter shared by all extractors of
`paper_plots`. -/
def filterDC (results : List Record) (dataset compressor : String) : List Record :=
  results.filter (fun r => decide (r.dataset = dataset ∧ r.compressor = compressor))

/-- Turn a list of `(batch_size, value)` points into the two parallel lists
the Python functions return. -/
def splitPoints (l : List (Nat × ℚ)) : List Nat × List ℚ :=
  (l.map Prod.fst, l.map Prod.snd)

/-- Points of `paper_plots.extract_compression_ratio_series` in a derived
branch: keep records whose batch size is in the baseline and which hold the
method, value `baseline[bs] / r[method]["total_bytes"]`. -/
def derivedRatioPoints (baseline : List (Nat × ℚ)) (method : String)
    (filtered : List Record) : List (Nat × ℚ) :=
  filtered.filterMap (fun r =>
    match dictLookup baseline r.batch_size, r.getMethod method with
    | some bl, some mr => some (r.batch_size, bl / mr.total_bytes)
    | _, _ => none)

/-- `paper_plots.extract_compression_ratio_series`. -/
def extract_compression_ratio_series (results : List Record)
    (dataset compressor method : String) : List Nat × List ℚ :=
  let filtered := sortByBatch (filterDC results dataset compressor)
  if compressor ∈ otapFamilies then
    let baseline := buildBaseline results
      (fun r => decide (r.dataset = dataset ∧ r.compressor ∈ otlpFamilies))
    splitPoints (derivedRatioPoints baseline method filtered)
  else if compressor ∈ arrowFamilies then
    let baseline := buildBaseline results
      (fun r => decide (r.dataset = dataset ∧ r.compressor = "tpch_proto"))
    splitPoints (derivedRatioPoints baseline method filtered)
  else
    splitPoints (filtered.filterMap (fun r =>
      (r.getMethod method).map (fun mr => (r.batch_size, mr.compression_ratio))))

/-- Points of `paper_plots.extract_speed_series`: skip records whose batch
size misses the baseline or which lack the method; the throughput and its
std are both rescaled by `baseline[bs] / total_uncompressed_bytes`, with the
scale defaulting to `1` when the record's own byte count is not positive. -/
def speedPoints (results : List Record) (dataset compressor method : String)
    (tt : TimeType) : List (Nat × ℚ × ℚ) :=
  let filtered := sortByBatch (filterDC results dataset compressor)
  let baseline := get_proto_baseline results dataset
  filtered.filterMap (fun r =>
    match dictLookup baseline r.batch_size, r.getMethod method with
    | some bl, some mr =>
      let st := mr.timeStats tt
      let scale := if 0 < r.total_uncompressed_bytes
        then bl / r.total_uncompressed_bytes else 1
      some (r.batch_size, st.throughput_mbps * scale, st.throughput_std_mbps * scale)
    | _, _ => none)

/-- `paper_plots.extract_speed_series`. -/
def extract_speed_series (results : List Record) (dataset compressor method : String)
    (tt : TimeType) : List Nat × List ℚ × List ℚ :=
  let pts := speedPoints results dataset compressor method tt
  (pts.map (fun p => p.1), pts.map (fun p => p.2.1), pts.map (fun p => p.2.2))

/-- `paper_plots.extract_time_series`: records lacking the method are
skipped (`if method not in r: continue`). -/
def extract_time_series (results : List Record) (dataset compressor method : String)
    (tt : TimeType) : List Nat × List ℚ × List ℚ :=
  let filtered := sortByBatch (filterDC results dataset compressor)
  let pts := filtered.filterMap (fun r =>
    (r.getMethod method).map (fun mr =>
      (r.batch_size, (mr.timeStats tt).avg_ms, (mr.timeStats tt).std_ms)))
  (pts.map (fun p => p.1), pts.map (fun p => p.2.1), pts.map (fun p => p.2.2))

/-- Points of `paper_plots.extract_format_efficiency_series`:
`baseline[bs] / total_uncompressed_bytes` for records whose batch size is in
the baseline. -/
def formatEfficiencyPoints (baseline : List (Nat × ℚ)) (filtered : List Record) :
    List (Nat × ℚ) :=
  filtered.filterMap (fun r =>
    (dictLookup baseline r.batch_size).map
      (fun bl => (r.batch_size, bl / r.total_uncompressed_bytes)))

/-- `paper_plots.extract_format_efficiency_series`. -/
def extract_format_efficiency_series (results : List Record)
    (dataset compressor : String) : List Nat × List ℚ :=
  let baseline := get_proto_baseline results dataset
  if baseline = [] then ([], [])
  else
    let filtered := sortByBatch (filterDC results dataset compressor)
    splitPoints (formatEfficiencyPoints baseline filtered)

/-- `paper_plots.extract_algorithm_effectiveness_series`:
`total_uncompressed_bytes / r[method]["total_bytes"]` for records holding the
method; no baseline involved. -/
def extract_algorithm_effectiveness_series (results : List Record)
    (dataset compressor method : String) : List Nat × List ℚ :=
  let filtered := sortByBatch (filterDC results dataset compressor)
  splitPoints (filtered.filterMap (fun r =>
    (r.getMethod method).map (fun mr =>
      (r.batch_size, r.total_uncompressed_bytes / mr.total_bytes))))

/-- `paper_plots.extract_final_cr_series`:
`baseline[bs] / r[method]["total_bytes"]`, guarded on both the baseline entry
and the method. -/
def extract_final_cr_series (results : List Record)
    (dataset compressor method : String) : List Nat × List ℚ :=
  let baseline := get_proto_baseline results dataset
  if baseline = [] then ([], [])
  else
    let filtered := sortByBatch (filterDC results dataset compressor)
    splitPoints (derivedRatioPoints baseline method filtered)

/-- Derived OTAP/OTLP-dict families of
`visualize_batch_size.extract_compression_ratio_series`. -/
def vizOtapFamilies : List String :=
  ["otap", "otapnodict", "otapdictperfile", "otlpmetricsdict", "otlptracesdict"]

/-- A Python list comprehension whose body can raise: evaluate left to
right, failing at the first element whose computation fails. -/
def mapOrRaise {α β : Type} (f : α → Option β) : List α → Option (List β)
  | [] => some []
  | a :: as =>
    match f a with
    | none => none
    | some b => (mapOrRaise f as).map (fun bs => b :: bs)

/-- Point loop of the derived branches of
`visualize_batch_size.extract_compression_ratio_series`: a record whose batch
size misses the baseline is skipped; method `"raw"` divides the baseline by
the record's own uncompressed bytes; any other method reads
`r[method]["total_bytes"]`, raising (here: `none`) when the method is absent. -/
def vizDerivedPoints (baseline : List (Nat × ℚ)) (method : String) :
    List Record → Option (List (Nat × ℚ))
  | [] => some []
  | r :: rs =>
    match dictLookup baseline r.batch_size with
    | none => vizDerivedPoints baseline method rs
    | some bl =>
      if method = "raw" then
        (vizDerivedPoints baseline method rs).map
          (fun ps => (r.batch_size, bl / r.total_uncompressed_bytes) :: ps)
      else
        match r.getMethod method with
        | none => none
        | some mr =>
          (vizDerivedPoints baseline method rs).map
            (fun ps => (r.batch_size, bl / mr.total_bytes) :: ps)

/-- `visualize_batch_size.extract_compression_ratio_series` (it receives the
records of one dataset, so it filters on the compressor only).  The
self-ratio branch reads `r[method]["compression_ratio"]` for every filtered
record, raising (`none`) when a record lacks the method. -/
def extract_compression_ratio_series_viz (dataset_results : List Record)
    (compressor method : String) : Option (List Nat × List ℚ) :=
  let filtered := sortByBatch (dataset_results.filter (fun r => decide (r.compressor = compressor)))
  if compressor ∈ vizOtapFamilies then
    let baseline := buildBaseline dataset_results
      (fun r => decide (r.compressor ∈ otlpFamilies))
    (vizDerivedPoints baseline method filtered).map splitPoints
  else if compressor ∈ arrowFamilies then
    let baseline := buildBaseline dataset_results
      (fun r => decide (r.compressor = "tpch_proto"))
    (vizDerivedPoints baseline method filtered).map splitPoints
  else
    (mapOrRaise (fun r : Record =>
        (r.getMethod method).map (fun mr => mr.compression_ratio)) filtered).map
      (fun ratios => (filtered.map (fun r => r.batch_size), ratios))

/-- `visualize_batch_size.extract_time_series`: no guard on the method key,
so the comprehension raises (`none`) as soon as any filtered record lacks
the method. -/
def extract_time_series_viz (dataset_results : List Record)
    (compressor method : String) (tt : TimeType) :
    Option (List Nat × List ℚ × List ℚ) :=
  let filtered := sortByBatch (dataset_results.filter (fun r => decide (r.compressor = compressor)))
  let batch_sizes := filtered.map (fun r => r.batch_size)
  match mapOrRaise (fun r : Record =>
      (r.getMethod method).map (fun mr => (mr.timeStats tt).avg_ms)) filtered with
  | none => none
  | some times =>
    match mapOrRaise (fun r : Record =>
        (r.getMethod method).map (fun mr => (mr.timeStats tt).std_ms)) filtered with
    | none => none
    | some stds => some (batch_sizes, times, stds)

/-- The compressors treated as TPC-H-side in
`visualize_batch_size.extract_e2e_speed_series`. -/
def tpchSpeedFamilies : List String := ["tpch_proto", "arrow", "arrownodict", "arrowdictperfile"]

/-- Point loop of `visualize_batch_size.extract_e2e_speed_series`: resolve the
baseline bytes (falling back to the record's own bytes for reference
compressors, skipping otherwise), read `r[method][time_type]["avg_ms"]`
(raising, i.e. `none`, when the method is absent) and emit
`baseline_bytes / time_ms / 1000` only when the time is strictly positive. -/
def e2eSpeedPoints (baseline : List (Nat × ℚ)) (compressor method : String)
    (tt : TimeType) : List Record → Option (List (Nat × ℚ))
  | [] => some []
  | r :: rs =>
    let rest := e2eSpeedPoints baseline compressor method tt rs
    let proceed : ℚ → Option (List (Nat × ℚ)) := fun baseline_bytes =>
      match r.getMethod method with
      | none => none
      | some mr =>
        let time_ms := (mr.timeStats tt).avg_ms
        if 0 < time_ms then
          rest.map (fun ps => (r.batch_size, baseline_bytes / time_ms / 1000) :: ps)
        else rest
    match dictLookup baseline r.batch_size with
    | none =>
      if compressor ∈ protoFamilies then proceed r.total_uncompressed_bytes
      else rest
    | some bl => proceed bl

/-- `visualize_batch_size.extract_e2e_speed_series`. -/
def extract_e2e_speed_series (dataset_results : List Record)
    (compressor method : String) (tt : TimeType) : Option (List Nat × List ℚ) :=
  let filtered := sortByBatch (dataset_results.filter (fun r => decide (r.compressor = compressor)))
  let baseline :=
    if compressor ∈ tpchSpeedFamilies then
      buildBaseline dataset_results (fun r => decide (r.compressor = "tpch_proto"))
    else
      buildBaseline dataset_results (fun r => decide (r.compressor ∈ otlpFamilies))
  (e2eSpeedPoints baseline compressor method tt filtered).map splitPoints

/-- `presentation_plots.DataPoint`. -/
structure DataPoint where
  batch_size : Nat
  compression_ratio : ℚ
  compression_throughput : ℚ
  decompression_throughput : ℚ
  uncompressed_bytes : ℚ
  compression_time_ms : ℚ
  decompression_time_ms : ℚ
deriving DecidableEq, Repr

/-- `presentation_plots.get_otlp_baseline_bytes`: first matching record. -/
def get_otlp_baseline_bytes (results : List Record) (dataset : String)
    (batch_size : Nat) : Option ℚ :=
  (results.find? (fun r => decide (r.dataset = dataset ∧ r.batch_size = batch_size ∧
    r.compressor ∈ otlpFamilies))).map (fun r => r.total_uncompressed_bytes)

/-- `presentation_plots.get_proto_baseline_bytes`: first matching record. -/
def get_proto_baseline_bytes (results : List Record) (dataset : String)
    (batch_size : Nat) : Option ℚ :=
  (results.find? (fun r => decide (r.dataset = dataset ∧ r.batch_size = batch_size ∧
    r.compressor = "tpch_proto"))).map (fun r => r.total_uncompressed_bytes)

/-- The point-building loop of `presentation_plots.extract_series`, before
the final sort: records are visited in input order. -/
def seriesPoints (results : List Record) (dataset compressor compression_type : String)
    (baseline_fn : Option (List Record → String → Nat → Option ℚ)) : List DataPoint :=
  results.filterMap (fun r =>
    if r.dataset = dataset ∧ r.compressor = compressor then
      (r.getMethod compression_type).bind (fun comp_data =>
        let ratio? : Option ℚ :=
          match baseline_fn with
          | some f => (f results dataset r.batch_size).map (fun b => b / comp_data.total_bytes)
          | none => some comp_data.compression_ratio
        ratio?.map (fun cr =>
          { batch_size := r.batch_size
            compression_ratio := cr
            compression_throughput := comp_data.compression.throughput_mbps
            decompression_throughput := comp_data.decompression.throughput_mbps
            uncompressed_bytes := r.total_uncompressed_bytes
            compression_time_ms := comp_data.compression.avg_ms
            decompression_time_ms := comp_data.decompression.avg_ms }))
    else none)

/-- `presentation_plots.extract_series`: build the points in input order,
then `points.sort(key=lambda p: p.batch_size)` (stable). -/
def extract_series (results : List Record) (dataset compressor compression_type : String)
    (baseline_fn : Option (List Record → String → Nat → Option ℚ)) : List DataPoint :=
  (seriesPoints results dataset compressor compression_type baseline_fn).insertionSort
    (fun a b => a.batch_size ≤ b.batch_size)

/-- `presentation_plots.calc_e2e_throughput`: divide the baseline bytes by
each time only when that time is strictly positive, else return `0`. -/
def calc_e2e_throughput (point : DataPoint) (baseline_bytes : ℚ) : ℚ × ℚ :=
  (if 0 < point.compression_time_ms
    then baseline_bytes / point.compression_time_ms / 1000 else 0,
   if 0 < point.decompression_time_ms
    then baseline_bytes / point.decompression_time_ms / 1000 else 0)

/-- One `(compressor, method, label, color, marker, linestyle)` entry of a
series-config table. -/
structure SeriesConfig where
  compressor : String
  method : String
  label : String
  color : String
  marker : String
  linestyle : String
deriving DecidableEq, Repr

/-- The plotting loop shared by `plot_dataset_compression_ratio`,
`plot_dataset_speed` and `plot_dataset_time` in `paper_plots`: a config
contributes one series exactly when its extraction is non-empty and its
label has not been plotted yet (`if batch_sizes and label not in
plotted_labels`). -/
def assembleSeries {α : Type} (f : SeriesConfig → List Nat × α)
    (plotted : List String) : List SeriesConfig → List (String × (List Nat × α))
  | [] => []
  | cfg :: rest =>
    let s := f cfg
    if s.1 ≠ [] ∧ cfg.label ∉ plotted then
      (cfg.label, s) :: assembleSeries f (cfg.label :: plotted) rest
    else assembleSeries f plotted rest

/-- The per-label series plotted by `paper_plots.plot_dataset_compression_ratio`. -/
def plot_dataset_compression_ratio (results : List Record) (dataset : String)
    (configs : List SeriesConfig) : List (String × (List Nat × List ℚ)) :=
  assembleSeries
    (fun cfg => extract_compression_ratio_series results dataset cfg.compressor cfg.method)
    [] configs

/-- The per-label series plotted by `paper_plots.plot_dataset_speed`. -/
def plot_dataset_speed (results : List Record) (dataset : String)
    (configs : List SeriesConfig) (tt : TimeType) :
    List (String × (List Nat × List ℚ × List ℚ)) :=
  assembleSeries
    (fun cfg => extract_speed_series results dataset cfg.compressor cfg.method tt)
    [] configs

/-! ### Helper lemmas about the dict model and the stable sort -/

theorem dictLookup_nil (k : Nat) : dictLookup [] k = none := rfl

theorem dictLookup_dictInsert_self (d : List (Nat × ℚ)) (k : Nat) (v : ℚ) :
    dictLookup (dictInsert d k v) k = some v := by
  induction d with
  | nil => simp [dictInsert, dictLookup]
  | cons p ds ih =>
    by_cases h : p.1 = k
    · simp [dictInsert, dictLookup, h]
    · simp only [dictInsert, if_neg h]
      simpa [dictLookup, List.find?_cons, h] using ih

theorem dictLookup_dictInsert_ne (d : List (Nat × ℚ)) (k k' : Nat) (v : ℚ)
    (h : k' ≠ k) : dictLookup (dictInsert d k v) k' = dictLookup d k' := by
  have hk : ¬(k = k') := fun e => h e.symm
  induction d with
  | nil => simp [dictInsert, dictLookup, hk]
  | cons p ds ih =>
    by_cases hp : p.1 = k
    · simp [dictInsert, dictLookup, hp, hk, List.find?_cons]
    · by_cases hp' : p.1 = k'
      · have hrw : dictInsert (p :: ds) k v = p :: dictInsert ds k v := by
          simp [dictInsert, hp]
        rw [hrw]
        simp [dictLookup, List.find?_cons, hp']
      · simp only [dictInsert, if_neg hp]
        simpa [dictLookup, List.find?_cons, hp'] using ih

theorem dictLookup_foldl_insert (p : Record → Bool) (bs : Nat) :
    ∀ (l : List Record) (acc : List (Nat × ℚ)),
    dictLookup (l.foldl
      (fun b r => if p r then dictInsert b r.batch_size r.total_uncompressed_bytes else b) acc) bs
    = match l.reverse.find? (fun r => p r && decide (r.batch_size = bs)) with
      | some r => some r.total_uncompressed_bytes
      | none => dictLookup acc bs
  | [], acc => by simp
  | r :: rs, acc => by
    rw [List.foldl_cons, dictLookup_foldl_insert p bs rs]
    simp only [List.reverse_cons, List.find?_append]
    cases hfind : rs.reverse.find? (fun r => p r && decide (r.batch_size = bs)) with
    | some r' => simp [hfind]
    | none =>
      simp only [hfind, Option.none_or]
      by_cases hp : p r
      · by_cases hbs : r.batch_size = bs
        · simp [List.find?_cons, hp, hbs, dictLookup_dictInsert_self]
        · simp [List.find?_cons, hp, hbs,
            dictLookup_dictInsert_ne _ _ _ _ (fun h => hbs h.symm)]
      · simp [List.find?_cons, hp, Bool.false_and]

/-- Lookup in a dict built by iterating records in input order stores, for
each batch size, the bytes of the *last* matching record. -/
theorem dictLookup_buildBaseline (results : List Record) (p : Record → Bool) (bs : Nat) :
    dictLookup (buildBaseline results p) bs
    = (results.reverse.find? (fun r => p r && decide (r.batch_size = bs))).map
        (fun r => r.total_uncompressed_bytes) := by
  rw [buildBaseline, dictLookup_foldl_insert]
  cases results.reverse.find? (fun r => p r && decide (r.batch_size = bs)) <;>
    simp [dictLookup]

theorem buildBaseline_eq_nil (results : List Record) (p : Record → Bool)
    (h : ∀ r ∈ results, p r = false) : buildBaseline results p = [] := by
  induction results with
  | nil => rfl
  | cons r rs ih =>
    have hr : p r = false := h r (List.mem_cons_self r rs)
    rw [buildBaseline, List.foldl_cons, hr]
    simp only [Bool.false_eq_true, if_false]
    exact ih (fun x hx => h x (List.mem_cons_of_mem r hx))

theorem zip_splitPoints (l : List (Nat × ℚ)) :
    (splitPoints l).1.zip (splitPoints l).2 = l := by
  simp [splitPoints, List.zip_map']

theorem mem_splitPoints (l : List (Nat × ℚ)) (q : Nat × ℚ) :
    q ∈ (splitPoints l).1.zip (splitPoints l).2 ↔ q ∈ l := by
  rw [zip_splitPoints]

/-- The batch-size sort is sorted, in generic key form. -/
theorem sorted_sortKey {α : Type} (key : α → Nat) (l : List α) :
    (l.insertionSort (fun a b => key a ≤ key b)).Pairwise (fun a b => key a ≤ key b) := by
  haveI : IsTotal α (fun a b => key a ≤ key b) := ⟨fun a b => Nat.le_total _ _⟩
  haveI : IsTrans α (fun a b => key a ≤ key b) := ⟨fun a b c => Nat.le_trans⟩
  exact List.sorted_insertionSort _ l

/-- Stability of the batch-size sort: the elements of one batch size appear
in the sorted list exactly as they appear in the input. -/
theorem filter_sortKey {α : Type} (key : α → Nat) (l : List α) (q : α → Bool)
    (hq : ∀ a b, q a = true → q b = true → key a ≤ key b) :
    (l.insertionSort (fun a b => key a ≤ key b)).filter q = l.filter q := by
  have hsub : List.Sublist (l.filter q)
      (l.insertionSort (fun a b => key a ≤ key b)) :=
    List.sublist_insertionSort
      (List.pairwise_of_forall_mem_list (fun a ha b hb =>
        hq a b (List.of_mem_filter ha) (List.of_mem_filter hb)))
      (List.filter_sublist l)
  have hsub2 : List.Sublist (l.filter q)
      ((l.insertionSort (fun a b => key a ≤ key b)).filter q) := by
    have h2 := hsub.filter q
    rw [List.filter_filter] at h2
    simpa only [Bool.and_self] using h2
  have hlen : (l.filter q).length
      = ((l.insertionSort (fun a b => key a ≤ key b)).filter q).length :=
    (((List.perm_insertionSort _ l).filter q).length_eq).symm
  exact (hsub2.eq_of_length hlen).symm

/-! ### Concrete fixture records for witnesses -/

/-- Fixture statistics. -/
def stA : Stats :=
  { avg_ms := 2, std_ms := 1, throughput_mbps := 400, throughput_std_mbps := 10 }

/-- Fixture method result, 200 compressed bytes. -/
def mrA : MethodResult :=
  { total_bytes := 200, compression_ratio := 4, compression := stA, decompression := stA }

/-- Fixture method result, 250 compressed bytes. -/
def mrB : MethodResult :=
  { total_bytes := 250, compression_ratio := 4, compression := stA, decompression := stA }

/-- Reference record: dataset d1, batch 100, otlp_metrics, 1000 raw bytes. -/
def recRef : Record :=
  { dataset := "d1", batch_size := 100, compressor := "otlp_metrics",
    total_uncompressed_bytes := 1000, methods := [("zstd", mrB)] }

/-- Derived record: dataset d1, batch 100, otap, 800 raw bytes. -/
def recCol : Record :=
  { dataset := "d1", batch_size := 100, compressor := "otap",
    total_uncompressed_bytes := 800, methods := [("zstd", mrA)] }

/-- Derived record of a dataset without any reference record. -/
def recD2 : Record :=
  { dataset := "d2", batch_size := 100, compressor := "otap",
    total_uncompressed_bytes := 800, methods := [("zstd", mrA)] }

/-! ### C3: the Baseline Resolver is last-write-wins -/

/-- C3: the Baseline Resolver builds its mapping by iterating matching
reference-family records in input order; its entry at any batch size is the
`total_uncompressed_bytes` of the *last* matching record with that batch
size (last-write-wins), and it is absent exactly when no record matches. -/
theorem baseline_resolver_last_write_wins (results : List Record) (dataset : String)
    (bs : Nat) :
    dictLookup (get_proto_baseline results dataset) bs
    = ((results.filter (fun r => decide (r.dataset = dataset ∧
          r.compressor ∈ protoFamilies ∧ r.batch_size = bs))).getLast?).map
        (fun r => r.total_uncompressed_bytes) := by
  have hfe : results.filter (fun r => decide (r.dataset = dataset ∧
        r.compressor ∈ protoFamilies) && decide (r.batch_size = bs))
      = results.filter (fun r => decide (r.dataset = dataset ∧
        r.compressor ∈ protoFamilies ∧ r.batch_size = bs)) := by
    apply List.filter_congr
    intro x _
    simp [Bool.and_assoc]
  rw [get_proto_baseline, dictLookup_buildBaseline, ← List.filter_head?,
    List.filter_reverse, List.head?_reverse, hfe]

/-! ### C4: missing reference family gives empty baseline and empty series -/

/-- C4: when no reference-family record exists for a dataset, the Baseline
Resolver returns the empty mapping, and both baseline-guarded series of the
Ratio Decomposer (format efficiency and final compression ratio) are empty
for every variant and algorithm of that dataset; everything is total, so no
exception can be raised. -/
theorem empty_baseline_empty_series (results : List Record) (dataset : String)
    (h : ∀ r ∈ results, ¬(r.dataset = dataset ∧ r.compressor ∈ protoFamilies)) :
    get_proto_baseline results dataset = []
    ∧ (∀ compressor, extract_format_efficiency_series results dataset compressor = ([], []))
    ∧ (∀ compressor method,
        extract_final_cr_series results dataset compressor method = ([], [])) := by
  have hb : get_proto_baseline results dataset = [] :=
    buildBaseline_eq_nil _ _ (fun r hr => by simp [h r hr])
  refine ⟨hb, fun c => ?_, fun c m => ?_⟩
  · rw [extract_format_efficiency_series, hb]
    simp
  · rw [extract_final_cr_series, hb]
    simp

/-- Witness for C4 at a concrete one-record collection whose only record is
a derived-variant record of dataset d2. -/
theorem empty_baseline_empty_series_witness :
    get_proto_baseline [recD2] "d2" = []
    ∧ extract_format_efficiency_series [recD2] "d2" "otap" = ([], [])
    ∧ extract_final_cr_series [recD2] "d2" "otap" "zstd" = ([], []) :=
  ⟨(empty_baseline_empty_series [recD2] "d2" (by decide)).1,
   (empty_baseline_empty_series [recD2] "d2" (by decide)).2.1 "otap",
   (empty_baseline_empty_series [recD2] "d2" (by decide)).2.2 "otap" "zstd"⟩

/-! ### C8: a reference variant is its own baseline -/

theorem mem_sortByBatch (l : List Record) (r : Record) : r ∈ sortByBatch l ↔ r ∈ l :=
  List.mem_insertionSort _

theorem mem_filterDC (results : List Record) (dataset compressor : String) (r : Record) :
    r ∈ filterDC results dataset compressor
    ↔ r ∈ results ∧ r.dataset = dataset ∧ r.compressor = compressor := by
  simp [filterDC, and_assoc]

/-- Unfold a successful baseline lookup into the last matching record. -/
theorem dictLookup_buildBaseline_eq_some (results : List Record) (p : Record → Bool)
    (bs : Nat) (bl : ℚ) (h : dictLookup (buildBaseline results p) bs = some bl) :
    ∃ r ∈ results, p r = true ∧ r.batch_size = bs ∧ r.total_uncompressed_bytes = bl := by
  rw [dictLookup_buildBaseline] at h
  rcases Option.map_eq_some'.1 h with ⟨r, hfind, hu⟩
  have hmem : r ∈ results.reverse := List.mem_of_find?_eq_some hfind
  have hpred := List.find?_some hfind
  simp only [Bool.and_eq_true, decide_eq_true_eq] at hpred
  exact ⟨r, List.mem_reverse.1 hmem, hpred.1, hpred.2, hu⟩

/-- C8: for a reference-family variant the format-efficiency series is
constantly `1`: the reference is its own baseline.  Preconditions: at most
one reference record per (dataset, batch size), and well-formed (strictly
positive) uncompressed byte counts. -/
theorem reference_format_efficiency_one (results : List Record)
    (dataset compressor : String)
    (hc : compressor ∈ protoFamilies)
    (huniq : ∀ r1 ∈ results, ∀ r2 ∈ results,
      r1.dataset = dataset → r1.compressor ∈ protoFamilies →
      r2.dataset = dataset → r2.compressor ∈ protoFamilies →
      r1.batch_size = r2.batch_size → r1 = r2)
    (hpos : ∀ r ∈ results, 0 < r.total_uncompressed_bytes) :
    ∀ v ∈ (extract_format_efficiency_series results dataset compressor).2, v = 1 := by
  intro v hv
  rw [extract_format_efficiency_series] at hv
  by_cases hb : get_proto_baseline results dataset = []
  · simp [hb] at hv
  · simp only [hb, if_neg, if_false] at hv
    simp only [splitPoints, List.mem_map] at hv
    obtain ⟨q, hq, hqv⟩ := hv
    simp only [formatEfficiencyPoints, List.mem_filterMap] at hq
    obtain ⟨r, hr, hfr⟩ := hq
    rcases Option.map_eq_some'.1 hfr with ⟨bl, hbl, hpt⟩
    obtain ⟨rl, hrlmem, hrlp, hrlbs, hrlu⟩ :=
      dictLookup_buildBaseline_eq_some results _ _ _ hbl
    simp only [decide_eq_true_eq] at hrlp
    rw [mem_sortByBatch, mem_filterDC] at hr
    obtain ⟨hrmem, hrds, hrc⟩ := hr
    have hreq : rl = r := huniq rl hrlmem r hrmem hrlp.1 hrlp.2 hrds
      (hrc ▸ hc) hrlbs
    have hune : r.total_uncompressed_bytes ≠ 0 := ne_of_gt (hpos r hrmem)
    have hbl1 : bl = r.total_uncompressed_bytes := by rw [← hrlu, hreq]
    rw [← hqv, ← hpt]
    simp [hbl1, div_self hune]

/-- Witness for C8 on a two-record collection (one reference record, one
derived record): the single format-efficiency value of the reference
variant is 1. -/
theorem reference_format_efficiency_one_witness : ((1000 : ℚ) / 1000) = 1 :=
  reference_format_efficiency_one [recRef, recCol] "d1" "otlp_metrics"
    (by decide) (by decide) (by decide) ((1000 : ℚ) / 1000) (by
      simp +decide [extract_format_efficiency_series, get_proto_baseline, buildBaseline,
        dictInsert, dictLookup, filterDC, sortByBatch, splitPoints,
        formatEfficiencyPoints, recRef, recCol, protoFamilies])

/-! ### C1: final ratio = format efficiency × algorithm effectiveness -/

theorem mem_formatEfficiencyPoints_inv (baseline : List (Nat × ℚ))
    (filtered : List Record) (bs : Nat) (e : ℚ)
    (h : (bs, e) ∈ formatEfficiencyPoints baseline filtered) :
    ∃ r ∈ filtered, r.batch_size = bs ∧ ∃ bl,
      dictLookup baseline r.batch_size = some bl
      ∧ e = bl / r.total_uncompressed_bytes := by
  simp only [formatEfficiencyPoints, List.mem_filterMap] at h
  obtain ⟨r, hr, hfr⟩ := h
  rcases Option.map_eq_some'.1 hfr with ⟨bl, hbl, hpt⟩
  rcases Prod.mk.injEq .. ▸ hpt with ⟨hbs, hval⟩
  exact ⟨r, hr, hbs, bl, hbl, hval.symm⟩

theorem mem_derivedRatioPoints_inv (baseline : List (Nat × ℚ)) (method : String)
    (filtered : List Record) (bs : Nat) (f : ℚ)
    (h : (bs, f) ∈ derivedRatioPoints baseline method filtered) :
    ∃ r ∈ filtered, r.batch_size = bs ∧ ∃ bl mr,
      dictLookup baseline r.batch_size = some bl
      ∧ r.getMethod method = some mr
      ∧ f = bl / mr.total_bytes := by
  simp only [derivedRatioPoints, List.mem_filterMap] at h
  obtain ⟨r, hr, hfr⟩ := h
  cases hbl : dictLookup baseline r.batch_size with
  | none => rw [hbl] at hfr; simp at hfr
  | some bl =>
    cases hmr : r.getMethod method with
    | none => rw [hbl, hmr] at hfr; simp at hfr
    | some mr =>
      rw [hbl, hmr] at hfr
      simp only [Option.some.injEq, Prod.mk.injEq] at hfr
      exact ⟨r, hr, hfr.1, bl, mr, hbl, hmr, hfr.2.symm⟩

/-- C1: for every batch size carried by all three series of the Ratio
Decomposer, `final = format_efficiency × algorithm_effectiveness`.  Rational
arithmetic models exact real arithmetic, so the identity is proved exactly,
which in particular puts it within any floating-point tolerance.
Preconditions are the spec's well-formedness of the input collection: at
most one record per (dataset, compressor, batch size), and strictly positive
uncompressed byte counts. -/
theorem final_cr_eq_product (results : List Record)
    (dataset compressor method : String)
    (huniq : ∀ r1 ∈ results, ∀ r2 ∈ results,
      r1.dataset = dataset → r1.compressor = compressor →
      r2.dataset = dataset → r2.compressor = compressor →
      r1.batch_size = r2.batch_size → r1 = r2)
    (hpos : ∀ r ∈ results, 0 < r.total_uncompressed_bytes)
    (bs : Nat) (e a f : ℚ)
    (he : (bs, e) ∈ (extract_format_efficiency_series results dataset compressor).1.zip
        (extract_format_efficiency_series results dataset compressor).2)
    (ha : (bs, a) ∈
        (extract_algorithm_effectiveness_series results dataset compressor method).1.zip
        (extract_algorithm_effectiveness_series results dataset compressor method).2)
    (hf : (bs, f) ∈ (extract_final_cr_series results dataset compressor method).1.zip
        (extract_final_cr_series results dataset compressor method).2) :
    f = e * a := by
  rw [extract_format_efficiency_series] at he
  rw [extract_final_cr_series] at hf
  rw [extract_algorithm_effectiveness_series] at ha
  by_cases hb : get_proto_baseline results dataset = []
  · simp [hb] at he
  simp only [hb, if_neg, if_false] at he hf
  rw [zip_splitPoints] at he hf ha
  obtain ⟨r1, hr1, hbs1, bl1, hbl1, hval1⟩ :=
    mem_formatEfficiencyPoints_inv _ _ _ _ he
  obtain ⟨r3, hr3, hbs3, bl3, mr3, hbl3, hmr3, hval3⟩ :=
    mem_derivedRatioPoints_inv _ _ _ _ _ hf
  simp only [List.mem_filterMap] at ha
  obtain ⟨r2, hr2, hfr2⟩ := ha
  rcases Option.map_eq_some'.1 hfr2 with ⟨mr2, hmr2, hpt2⟩
  rcases Prod.mk.injEq .. ▸ hpt2 with ⟨hbs2, hval2⟩
  rw [mem_sortByBatch, mem_filterDC] at hr1 hr2 hr3
  have h12 : r1 = r2 := huniq r1 hr1.1 r2 hr2.1 hr1.2.1 hr1.2.2 hr2.2.1 hr2.2.2
    (by rw [hbs1, hbs2])
  have h13 : r1 = r3 := huniq r1 hr1.1 r3 hr3.1 hr1.2.1 hr1.2.2 hr3.2.1 hr3.2.2
    (by rw [hbs1, hbs3])
  have hbl13 : bl1 = bl3 := by
    have := hbl1
    rw [h13, hbl3] at this
    exact (Option.some.injEq .. ▸ this).symm
  have hu : r1.total_uncompressed_bytes ≠ 0 := ne_of_gt (hpos r1 hr1.1)
  have hmr23 : mr2 = mr3 := by
    rw [← h12] at hmr2
    rw [← h13] at hmr3
    exact Option.some.inj (hmr2.symm.trans hmr3)
  rw [hval3, hval1, ← hval2, ← h12, ← hbl13, hmr23]
  rw [div_mul_div_comm, mul_comm bl1 r1.total_uncompressed_bytes,
    mul_div_mul_left _ _ hu]

/-- Witness for C1: Scenario A of the spec, final 1000/200 = 5 equals
format efficiency 1000/800 times algorithm effectiveness 800/200. -/
theorem final_cr_eq_product_witness :
    ((1000 : ℚ) / 200) = 1000 / 800 * (800 / 200) :=
  final_cr_eq_product [recRef, recCol] "d1" "otap" "zstd"
    (by decide) (by decide) 100 (1000 / 800) (800 / 200) (1000 / 200)
    (by simp +decide [extract_format_efficiency_series, get_proto_baseline,
      buildBaseline, dictInsert, dictLookup, filterDC, sortByBatch, splitPoints,
      formatEfficiencyPoints, recRef, recCol, protoFamilies])
    (by simp +decide [extract_algorithm_effectiveness_series, filterDC, sortByBatch,
      splitPoints, recRef, recCol, Record.getMethod, mrA, mrB])
    (by simp +decide [extract_final_cr_series, get_proto_baseline, buildBaseline,
      dictInsert, dictLookup, filterDC, sortByBatch, splitPoints,
      derivedRatioPoints, recRef, recCol, protoFamilies, Record.getMethod, mrA, mrB])

/-! ### C2: derived-variant ratio extraction refines its specification -/

/-- Specification-level description of derived-variant ratio extraction,
written from the spec's words (the refinement target for C2): per record of
the (dataset, variant) family sorted by batch size, the value is
`baseline[batch_size] / compressed_bytes` of the named algorithm, where the
baseline entry for a batch size is the byte count of the last matching
reference-family record; a record whose batch size has no baseline entry
(or which does not carry the algorithm) is omitted, with no zero-fill and no
failure. -/
def ratioSeriesSpec (results : List Record) (dataset : String) (refFams : List String)
    (compressor method : String) : List Nat × List ℚ :=
  splitPoints ((sortByBatch (results.filter (fun r =>
      decide (r.dataset = dataset ∧ r.compressor = compressor)))).filterMap
    (fun r =>
      match results.reverse.find? (fun b => decide (b.dataset = dataset ∧
          b.compressor ∈ refFams ∧ b.batch_size = r.batch_size)),
        r.getMethod method with
      | some b, some mr =>
        some (r.batch_size, b.total_uncompressed_bytes / mr.total_bytes)
      | _, _ => none))

/-- C2: for every derived (non-reference) variant the ratio extractor of
`paper_plots` agrees with the specification-level description: per record
sorted by batch size, value `baseline[batch_size] / compressed_bytes` of the
named algorithm against the matching reference family (OTLP for the OTAP
families, tpch_proto for the Arrow families), and records whose batch size
is absent from the baseline are dropped without error. -/
theorem derived_ratio_series_spec (results : List Record)
    (dataset compressor method : String) :
    (compressor ∈ otapFamilies →
      extract_compression_ratio_series results dataset compressor method
        = ratioSeriesSpec results dataset otlpFamilies compressor method)
    ∧ (compressor ∈ arrowFamilies →
      extract_compression_ratio_series results dataset compressor method
        = ratioSeriesSpec results dataset ["tpch_proto"] compressor method) := by
  constructor
  · intro h
    rw [extract_compression_ratio_series, ratioSeriesSpec]
    simp only [if_pos h]
    rw [filterDC, derivedRatioPoints]
    congr 1
    apply List.filterMap_congr
    intro r _
    have hpred : (fun b : Record => decide (b.dataset = dataset ∧
          b.compressor ∈ otlpFamilies) && decide (b.batch_size = r.batch_size))
        = (fun b : Record => decide (b.dataset = dataset ∧
          b.compressor ∈ otlpFamilies ∧ b.batch_size = r.batch_size)) := by
      funext b
      simp [Bool.and_assoc]
    rw [dictLookup_buildBaseline, hpred]
    cases results.reverse.find? (fun b => decide (b.dataset = dataset ∧
        b.compressor ∈ otlpFamilies ∧ b.batch_size = r.batch_size)) with
    | none => simp
    | some b => cases r.getMethod method <;> simp
  · intro h
    have hno : compressor ∉ otapFamilies := by
      simp only [arrowFamilies, List.mem_cons, List.not_mem_nil, or_false] at h
      rcases h with h | h | h <;> subst h <;> decide
    rw [extract_compression_ratio_series, ratioSeriesSpec]
    simp only [if_neg hno, if_pos h]
    rw [filterDC, derivedRatioPoints]
    congr 1
    apply List.filterMap_congr
    intro r _
    have hpred : (fun b : Record => decide (b.dataset = dataset ∧
          b.compressor = "tpch_proto") && decide (b.batch_size = r.batch_size))
        = (fun b : Record => decide (b.dataset = dataset ∧
          b.compressor ∈ (["tpch_proto"] : List String) ∧ b.batch_size = r.batch_size)) := by
      funext b
      simp [Bool.and_assoc]
    rw [dictLookup_buildBaseline, hpred]
    cases results.reverse.find? (fun b => decide (b.dataset = dataset ∧
        b.compressor ∈ (["tpch_proto"] : List String) ∧ b.batch_size = r.batch_size)) with
    | none => simp
    | some b => cases r.getMethod method <;> simp

/-- Witness for C2 at a concrete collection: the OTAP-family branch of the
extractor agrees with the specification description. -/
theorem derived_ratio_series_spec_witness :
    extract_compression_ratio_series [recRef, recCol] "d1" "otap" "zstd"
      = ratioSeriesSpec [recRef, recCol] "d1" otlpFamilies "otap" "zstd" :=
  (derived_ratio_series_spec [recRef, recCol] "d1" "otap" "zstd").1 (by decide)

/-! ### C5: end-to-end speed rescaling -/

theorem zip3_proj (pts : List (Nat × ℚ × ℚ)) :
    (pts.map (fun p => p.1)).zip
      ((pts.map (fun p => p.2.1)).zip (pts.map (fun p => p.2.2))) = pts := by
  induction pts with
  | nil => rfl
  | cons p ps ih => simp [List.zip_cons_cons, ih]

/-- C5: every point emitted by `extract_speed_series` for `e2e_speed` comes
from a record of the queried (dataset, variant) whose batch size is in the
Proto baseline and which carries the algorithm; its value is the stored
`throughput_mbps` times `baseline_bytes / own_uncompressed_bytes`, its
reported std is the stored `throughput_std_mbps` times the same factor, and
when `own_uncompressed_bytes = 0` the factor is `1` so the value equals
`throughput_mbps` exactly. -/
theorem e2e_speed_rescaling (results : List Record)
    (dataset compressor method : String) (tt : TimeType) (bs : Nat) (v s : ℚ)
    (h : (bs, v, s) ∈ (extract_speed_series results dataset compressor method tt).1.zip
        ((extract_speed_series results dataset compressor method tt).2.1.zip
         (extract_speed_series results dataset compressor method tt).2.2)) :
    ∃ r ∈ results, r.dataset = dataset ∧ r.compressor = compressor ∧ r.batch_size = bs
      ∧ ∃ bl mr, dictLookup (get_proto_baseline results dataset) bs = some bl
        ∧ r.getMethod method = some mr
        ∧ v = (mr.timeStats tt).throughput_mbps *
            (if 0 < r.total_uncompressed_bytes then bl / r.total_uncompressed_bytes else 1)
        ∧ s = (mr.timeStats tt).throughput_std_mbps *
            (if 0 < r.total_uncompressed_bytes then bl / r.total_uncompressed_bytes else 1)
        ∧ (r.total_uncompressed_bytes = 0 →
            v = (mr.timeStats tt).throughput_mbps) := by
  rw [extract_speed_series, zip3_proj] at h
  simp only [speedPoints, List.mem_filterMap] at h
  obtain ⟨r, hr, hfr⟩ := h
  rw [mem_sortByBatch, mem_filterDC] at hr
  cases hbl : dictLookup (get_proto_baseline results dataset) r.batch_size with
  | none => rw [hbl] at hfr; simp at hfr
  | some bl =>
    cases hmr : r.getMethod method with
    | none => rw [hbl, hmr] at hfr; simp at hfr
    | some mr =>
      rw [hbl, hmr] at hfr
      simp only [Option.some.injEq, Prod.mk.injEq] at hfr
      obtain ⟨hbs, hv, hs⟩ := hfr
      refine ⟨r, hr.1, hr.2.1, hr.2.2, hbs, bl, mr, hbs ▸ hbl, hmr,
        hv.symm, hs.symm, ?_⟩
      intro hu0
      rw [← hv, hu0]
      norm_num

/-- Witness for C5: a concrete derived record (800 own bytes against a
1000-byte Proto baseline) yields speed 400 × 1000/800 and std 10 × 1000/800. -/
theorem e2e_speed_rescaling_witness :
    ∃ r ∈ [recRef, recCol], r.dataset = "d1" ∧ r.compressor = "otap"
      ∧ r.batch_size = 100
      ∧ ∃ bl mr, dictLookup (get_proto_baseline [recRef, recCol] "d1") 100 = some bl
        ∧ r.getMethod "zstd" = some mr
        ∧ 400 * ((1000 : ℚ) / 800) = (mr.timeStats TimeType.compression).throughput_mbps *
            (if 0 < r.total_uncompressed_bytes then bl / r.total_uncompressed_bytes else 1)
        ∧ 10 * ((1000 : ℚ) / 800) = (mr.timeStats TimeType.compression).throughput_std_mbps *
            (if 0 < r.total_uncompressed_bytes then bl / r.total_uncompressed_bytes else 1)
        ∧ (r.total_uncompressed_bytes = 0 →
            400 * ((1000 : ℚ) / 800) = (mr.timeStats TimeType.compression).throughput_mbps) :=
  e2e_speed_rescaling [recRef, recCol] "d1" "otap" "zstd" TimeType.compression
    100 (400 * ((1000 : ℚ) / 800)) (10 * ((1000 : ℚ) / 800))
    (by simp +decide [extract_speed_series, speedPoints, get_proto_baseline,
      buildBaseline, dictInsert, dictLookup, filterDC, sortByBatch,
      recRef, recCol, protoFamilies, Record.getMethod, mrA, mrB, stA,
      MethodResult.timeStats])

/-! ### C6: behaviour on records lacking the requested algorithm key -/

/-- A record with no per-algorithm sub-results at all. -/
def recNoMethod : Record :=
  { dataset := "d1", batch_size := 50, compressor := "otap",
    total_uncompressed_bytes := 500, methods := [] }

theorem map_fst_filterMap_opt {β : Type} (l : List Record)
    (g : Record → Option MethodResult) (f : Record → MethodResult → β) :
    (l.filterMap (fun r => (g r).map (fun mr => (r.batch_size, f r mr)))).map
      (fun p => p.1)
    = (l.filter (fun r => (g r).isSome)).map (fun r => r.batch_size) := by
  induction l with
  | nil => rfl
  | cons r rs ih =>
    cases hg : g r <;>
      simp [List.filterMap_cons, hg, List.filter_cons, ih]

theorem mapOrRaise_isSome {α β : Type} (l : List α) (f : α → Option β) :
    (mapOrRaise f l).isSome = true ↔ ∀ a ∈ l, (f a).isSome = true := by
  induction l with
  | nil => simp [mapOrRaise]
  | cons a as ih =>
    cases hf : f a <;> simp [mapOrRaise, hf, ih]

/-- Counterexample for C6: in `visualize_batch_size.extract_time_series` a
filtered record lacking the requested algorithm key does *not* merely drop
its point — the whole extraction raises `KeyError` (modelled as `none`),
contradicting the claim that the extractor never raises for a missing
algorithm key. -/
theorem viz_time_series_missing_method_raises :
    recNoMethod.getMethod "zstd" = none
    ∧ extract_time_series_viz [recNoMethod] "otap" "zstd" TimeType.compression
        = none := by
  constructor
  · rfl
  · simp +decide [extract_time_series_viz, sortByBatch, recNoMethod, Record.getMethod]

/-- C6 (amended): in `paper_plots`, a record lacking the requested algorithm
key contributes no point and the remaining records are still extracted (the
extractor is total, so it never raises); in `visualize_batch_size`,
`extract_time_series` instead succeeds exactly when *every* filtered record
carries the algorithm key — as soon as one lacks it, the whole extraction
fails with `KeyError` (modelled as `none`). -/
theorem time_series_missing_method (results : List Record)
    (dataset compressor method : String) (tt : TimeType) :
    (extract_time_series results dataset compressor method tt).1
      = ((sortByBatch (filterDC results dataset compressor)).filter
          (fun r => (r.getMethod method).isSome)).map (fun r => r.batch_size)
    ∧ ((extract_time_series_viz results compressor method tt).isSome = true
        ↔ ∀ r ∈ results.filter (fun r => decide (r.compressor = compressor)),
            (r.getMethod method).isSome = true) := by
  constructor
  · rw [extract_time_series]
    exact map_fst_filterMap_opt _ _ _
  · rw [extract_time_series_viz]
    have hmem : ∀ r : Record,
        r ∈ sortByBatch (results.filter (fun r => decide (r.compressor = compressor)))
        ↔ r ∈ results.filter (fun r => decide (r.compressor = compressor)) :=
      fun r => mem_sortByBatch _ r
    cases h1 : mapOrRaise (fun r : Record => (r.getMethod method).map
          (fun mr => (mr.timeStats tt).avg_ms))
        (sortByBatch (results.filter
          (fun r => decide (r.compressor = compressor)))) with
    | none =>
      simp only [h1, Option.isSome_none, Bool.false_eq_true, false_iff]
      intro hall
      have : (mapOrRaise (fun r : Record => (r.getMethod method).map
            (fun mr => (mr.timeStats tt).avg_ms))
          (sortByBatch (results.filter
            (fun r => decide (r.compressor = compressor))))).isSome = true := by
        rw [mapOrRaise_isSome]
        intro r hr
        simp [Option.isSome_map, hall r ((hmem r).1 hr)]
      rw [h1] at this
      simp at this
    | some times =>
      have hall1 : ∀ r ∈ sortByBatch (results.filter
          (fun r => decide (r.compressor = compressor))),
          (r.getMethod method).isSome = true := by
        have : (mapOrRaise (fun r : Record => (r.getMethod method).map
              (fun mr => (mr.timeStats tt).avg_ms))
            (sortByBatch (results.filter
              (fun r => decide (r.compressor = compressor))))).isSome = true := by
          rw [h1]; rfl
        rw [mapOrRaise_isSome] at this
        intro r hr
        have := this r hr
        simpa [Option.isSome_map'] using this
      have h2 : (mapOrRaise (fun r : Record => (r.getMethod method).map
            (fun mr => (mr.timeStats tt).std_ms))
          (sortByBatch (results.filter
            (fun r => decide (r.compressor = compressor))))).isSome = true := by
        rw [mapOrRaise_isSome]
        intro r hr
        simp [Option.isSome_map, hall1 r hr]
      rcases Option.isSome_iff_exists.1 h2 with ⟨stds, hstds⟩
      simp only [h1, hstds, Option.isSome_some, true_iff]
      intro r hr
      exact hall1 r ((hmem r).2 hr)

/-- Witness for C6's amended viz half at a concrete input where every
record carries the algorithm: the extraction succeeds. -/
theorem time_series_missing_method_witness :
    (extract_time_series [recRef, recCol] "d1" "otap" "zstd" TimeType.compression).1
      = ((sortByBatch (filterDC [recRef, recCol] "d1" "otap")).filter
          (fun r => (r.getMethod "zstd").isSome)).map (fun r => r.batch_size)
    ∧ ((extract_time_series_viz [recRef, recCol] "otap" "zstd"
          TimeType.compression).isSome = true
        ↔ ∀ r ∈ [recRef, recCol].filter (fun r => decide (r.compressor = "otap")),
            (r.getMethod "zstd").isSome = true) :=
  time_series_missing_method [recRef, recCol] "d1" "otap" "zstd" TimeType.compression

/-! ### C7: the Series Assembler is first-write-wins -/

theorem assembleSeries_labels {α : Type} (f : SeriesConfig → List Nat × α) :
    ∀ (configs : List SeriesConfig) (plotted : List String),
    ((assembleSeries f plotted configs).map Prod.fst).Nodup
    ∧ ∀ l ∈ (assembleSeries f plotted configs).map Prod.fst, l ∉ plotted
  | [], plotted => by simp [assembleSeries]
  | cfg :: rest, plotted => by
    rw [assembleSeries]
    by_cases hc : (f cfg).1 ≠ [] ∧ cfg.label ∉ plotted
    · rw [if_pos hc]
      obtain ⟨ihn, ihp⟩ := assembleSeries_labels f rest (cfg.label :: plotted)
      constructor
      · rw [List.map_cons, List.nodup_cons]
        exact ⟨fun hmem => ihp _ hmem (List.mem_cons_self _ _), ihn⟩
      · intro l hl
        rw [List.map_cons, List.mem_cons] at hl
        rcases hl with hl | hl
        · exact hl ▸ hc.2
        · exact fun hlp => ihp l hl (List.mem_cons_of_mem _ hlp)
    · rw [if_neg hc]
      exact assembleSeries_labels f rest plotted

theorem assembleSeries_find? {α : Type} (f : SeriesConfig → List Nat × α) (L : String) :
    ∀ (configs : List SeriesConfig) (plotted : List String),
    ((assembleSeries f plotted configs).find? (fun p => p.1 = L)).map Prod.snd
    = if L ∈ plotted then none
      else ((configs.find? (fun c => decide (c.label = L ∧ (f c).1 ≠ []))).map f)
  | [], plotted => by
    rw [assembleSeries]
    by_cases hL : L ∈ plotted <;> simp [hL]
  | cfg :: rest, plotted => by
    rw [assembleSeries]
    by_cases hc : (f cfg).1 ≠ [] ∧ cfg.label ∉ plotted
    · rw [if_pos hc]
      by_cases heq : cfg.label = L
      · have hLp : L ∉ plotted := heq ▸ hc.2
        rw [List.find?_cons_of_pos _ (by simp [heq]), if_neg hLp,
          List.find?_cons_of_pos _ (by simp [heq, hc.1])]
        simp
      · rw [List.find?_cons_of_neg _ (by simp [heq]),
          assembleSeries_find? f L rest (cfg.label :: plotted)]
        by_cases hL : L ∈ plotted
        · rw [if_pos (List.mem_cons_of_mem _ hL), if_pos hL]
        · have hnotc : L ∉ cfg.label :: plotted := by
            rw [List.mem_cons]
            rintro (h | h)
            · exact heq h.symm
            · exact hL h
          rw [if_neg hnotc, if_neg hL, List.find?_cons_of_neg _ (by simp [heq])]
    · rw [if_neg hc]
      rw [assembleSeries_find? f L rest plotted]
      by_cases hL : L ∈ plotted
      · simp [hL]
      · rw [if_neg hL, if_neg hL, List.find?_cons_of_neg]
        simp only [decide_eq_true_eq, not_and]
        intro heq hne
        rcases not_and_or.1 hc with h1 | h2
        · exact absurd hne (by simpa using h1)
        · exact absurd (heq ▸ (not_not.1 h2)) hL

/-- C7: the plotting loops of `paper_plots` assemble at most one series per
label, and the series shown under a label is the extraction of the *first*
configuration with that label whose extraction is non-empty — any later
configuration with the same label contributes nothing, even if it would
yield different data.  Stated for both the compression-ratio and the speed
assembler. -/
theorem series_assembler_first_write_wins (results : List Record) (dataset : String)
    (configs : List SeriesConfig) (L : String) (tt : TimeType) :
    ((plot_dataset_compression_ratio results dataset configs).map Prod.fst).Nodup
    ∧ ((plot_dataset_compression_ratio results dataset configs).find?
        (fun p => p.1 = L)).map Prod.snd
      = (configs.find? (fun c => decide (c.label = L ∧
          (extract_compression_ratio_series results dataset
            c.compressor c.method).1 ≠ []))).map
          (fun c => extract_compression_ratio_series results dataset
            c.compressor c.method)
    ∧ ((plot_dataset_speed results dataset configs tt).map Prod.fst).Nodup
    ∧ ((plot_dataset_speed results dataset configs tt).find?
        (fun p => p.1 = L)).map Prod.snd
      = (configs.find? (fun c => decide (c.label = L ∧
          (extract_speed_series results dataset c.compressor c.method tt).1 ≠ []))).map
          (fun c => extract_speed_series results dataset c.compressor c.method tt) := by
  refine ⟨(assembleSeries_labels _ configs []).1, ?_,
    (assembleSeries_labels _ configs []).1, ?_⟩
  · rw [plot_dataset_compression_ratio, assembleSeries_find?]
    simp
  · rw [plot_dataset_speed, assembleSeries_find?]
    simp

/-! ### C9: extracted series are sorted by batch size, ties in input order -/

/-- The per-record point function of the derived branches of the viz ratio
extractor, applicable once no record raises: a record with no baseline entry
yields no point; otherwise the value is baseline over raw bytes for method
`"raw"` and baseline over compressed bytes for a real algorithm. -/
def vizPointFun (baseline : List (Nat × ℚ)) (method : String) (r : Record) :
    Option (Nat × ℚ) :=
  match dictLookup baseline r.batch_size with
  | none => none
  | some bl =>
    if method = "raw" then some (r.batch_size, bl / r.total_uncompressed_bytes)
    else
      match r.getMethod method with
      | none => none
      | some mr => some (r.batch_size, bl / mr.total_bytes)

theorem vizPointFun_fst (baseline : List (Nat × ℚ)) (method : String) (r : Record)
    (q : Nat × ℚ) (h : vizPointFun baseline method r = some q) :
    q.1 = r.batch_size := by
  rw [vizPointFun] at h
  cases hd : dictLookup baseline r.batch_size with
  | none => simp [hd] at h
  | some bl =>
    simp only [hd] at h
    by_cases hm : method = "raw"
    · simp only [if_pos hm, Option.some.injEq] at h
      rw [← h]
    · simp only [if_neg hm] at h
      cases hg : r.getMethod method with
      | none => simp [hg] at h
      | some mr =>
        simp only [hg, Option.some.injEq] at h
        rw [← h]

theorem vizDerivedPoints_some_eq (baseline : List (Nat × ℚ)) (method : String) :
    ∀ (l : List Record) (ps : List (Nat × ℚ)),
    vizDerivedPoints baseline method l = some ps →
    ps = l.filterMap (vizPointFun baseline method)
  | [], ps, h => by
    simp only [vizDerivedPoints, Option.some.injEq] at h
    simp [← h]
  | r :: rs, ps, h => by
    rw [vizDerivedPoints] at h
    rw [List.filterMap_cons, vizPointFun]
    cases hd : dictLookup baseline r.batch_size with
    | none =>
      simp only [hd] at h ⊢
      exact vizDerivedPoints_some_eq baseline method rs ps h
    | some bl =>
      simp only [hd] at h ⊢
      by_cases hm : method = "raw"
      · simp only [if_pos hm] at h ⊢
        rcases Option.map_eq_some'.1 h with ⟨ps', hps', hcons⟩
        rw [← hcons, vizDerivedPoints_some_eq baseline method rs ps' hps']
      · simp only [if_neg hm] at h ⊢
        cases hg : r.getMethod method with
        | none => simp [hg] at h
        | some mr =>
          simp only [hg] at h ⊢
          rcases Option.map_eq_some'.1 h with ⟨ps', hps', hcons⟩
          rw [← hcons, vizDerivedPoints_some_eq baseline method rs ps' hps']

theorem vizDerivedPoints_isSome_iff (baseline : List (Nat × ℚ)) (method : String) :
    ∀ l : List Record,
    (vizDerivedPoints baseline method l).isSome = true ↔
    ∀ r ∈ l, dictLookup baseline r.batch_size = none ∨ method = "raw"
      ∨ (r.getMethod method).isSome = true
  | [] => by simp [vizDerivedPoints]
  | r :: rs => by
    rw [vizDerivedPoints]
    cases hd : dictLookup baseline r.batch_size with
    | none =>
      simp only [hd]
      rw [vizDerivedPoints_isSome_iff baseline method rs]
      constructor
      · intro hall r' hr'
        rcases List.mem_cons.1 hr' with h | h
        · exact h ▸ Or.inl hd
        · exact hall r' h
      · intro hall r' hr'
        exact hall r' (List.mem_cons_of_mem _ hr')
    | some bl =>
      simp only [hd]
      by_cases hm : method = "raw"
      · simp only [if_pos hm, Option.isSome_map']
        rw [vizDerivedPoints_isSome_iff baseline method rs]
        constructor
        · intro hall r' hr'
          rcases List.mem_cons.1 hr' with h | h
          · exact Or.inr (Or.inl hm)
          · exact hall r' h
        · intro hall r' hr'
          exact hall r' (List.mem_cons_of_mem _ hr')
      · simp only [if_neg hm]
        cases hg : r.getMethod method with
        | none =>
          simp only [Option.isSome_none, Bool.false_eq_true, false_iff]
          intro hall
          rcases hall r (List.mem_cons_self r rs) with h | h | h
          · rw [hd] at h; cases h
          · exact hm h
          · rw [hg] at h; cases h
        | some mr =>
          simp only [Option.isSome_map']
          rw [vizDerivedPoints_isSome_iff baseline method rs]
          constructor
          · intro hall r' hr'
            rcases List.mem_cons.1 hr' with h | h
            · subst h
              exact Or.inr (Or.inr (by simp [hg]))
            · exact hall r' h
          · intro hall r' hr'
            exact hall r' (List.mem_cons_of_mem _ hr')

theorem filterMap_filter_key {α : Type} (key : α → Nat) (g : α → Option (Nat × ℚ))
    (hg : ∀ a q, g a = some q → q.1 = key a) (b : Nat) :
    ∀ l : List α,
    (l.filter (fun a => decide (key a = b))).filterMap g
    = (l.filterMap g).filter (fun q => decide (q.1 = b))
  | [] => rfl
  | a :: l => by
    rw [List.filter_cons, List.filterMap_cons]
    cases hga : g a with
    | none =>
      by_cases hb : key a = b
      · simp only [hb, decide_True, if_true, List.filterMap_cons, hga]
        exact filterMap_filter_key key g hg b l
      · simp only [hb, decide_False, Bool.false_eq_true, if_false]
        exact filterMap_filter_key key g hg b l
    | some q =>
      have hq1 : q.1 = key a := hg a q hga
      by_cases hb : key a = b
      · simp only [hb, decide_True, if_true, List.filterMap_cons, hga,
          List.filter_cons, hq1, if_pos]
        rw [filterMap_filter_key key g hg b l]
      · simp only [hb, decide_False, Bool.false_eq_true, if_false,
          List.filter_cons, hq1]
        rw [filterMap_filter_key key g hg b l]

theorem pairwise_fst_filterMap {α : Type} (key : α → Nat) (g : α → Option (Nat × ℚ))
    (hg : ∀ a q, g a = some q → q.1 = key a) (l : List α)
    (hl : l.Pairwise (fun a b => key a ≤ key b)) :
    ((l.filterMap g).map Prod.fst).Pairwise (fun a b => a ≤ b) := by
  rw [List.pairwise_map, List.pairwise_filterMap]
  refine hl.imp ?_
  intro a c hac q hq q' hq'
  rw [hg a q hq, hg c q' hq']
  exact hac

theorem mapOrRaise_eq_some {α β : Type} (f : α → Option β) :
    ∀ (l : List α) (ys : List β), mapOrRaise f l = some ys → ys = l.filterMap f
  | [], ys, h => by
    simp only [mapOrRaise, Option.some.injEq] at h
    simp [← h]
  | a :: l, ys, h => by
    rw [mapOrRaise] at h
    cases hf : f a with
    | none => simp [hf] at h
    | some v =>
      simp only [hf] at h
      rcases Option.map_eq_some'.1 h with ⟨ys', hys', hcons⟩
      rw [List.filterMap_cons, hf, ← hcons,
        mapOrRaise_eq_some f l ys' hys']

/-- The pair-level reading of the self-ratio branch of the viz extractor:
batch size paired with the stored compression ratio, raising on a record
that lacks the algorithm. -/
def selfRatioPairs (method : String) (l : List Record) : Option (List (Nat × ℚ)) :=
  mapOrRaise (fun r => (r.getMethod method).map
    (fun mr => (r.batch_size, mr.compression_ratio))) l

theorem selfRatioPair_fst (method : String) (r : Record) (q : Nat × ℚ)
    (h : (r.getMethod method).map
      (fun mr => (r.batch_size, mr.compression_ratio)) = some q) :
    q.1 = r.batch_size := by
  rcases Option.map_eq_some'.1 h with ⟨mr, _, hq⟩
  rw [← hq]

theorem zip_map_filterMap_self (method : String) :
    ∀ l : List Record, (∀ r ∈ l, (r.getMethod method).isSome = true) →
    (l.map (fun r => r.batch_size)).zip
      (l.filterMap (fun r => (r.getMethod method).map (fun mr => mr.compression_ratio)))
    = l.filterMap (fun r => (r.getMethod method).map
        (fun mr => (r.batch_size, mr.compression_ratio)))
  | [], _ => rfl
  | r :: l, hall => by
    rcases Option.isSome_iff_exists.1 (hall r (List.mem_cons_self r l)) with ⟨mr, hmr⟩
    rw [List.map_cons, List.filterMap_cons, List.filterMap_cons, hmr]
    simp only [Option.map_some']
    rw [List.zip_cons_cons,
      zip_map_filterMap_self method l (fun x hx => hall x (List.mem_cons_of_mem _ hx))]

/-- Derived-branch core of C9: from a successful extraction on the sorted
records, the batch sizes are non-decreasing and the points of any one batch
size are those computed from the input-order records. -/
theorem vizDerived_sorted_stable (dr : List Record) (baseline : List (Nat × ℚ))
    (compressor method : String) (ps : List (Nat × ℚ)) (b : Nat)
    (h : vizDerivedPoints baseline method
      (sortByBatch (dr.filter (fun r => decide (r.compressor = compressor)))) = some ps) :
    (ps.map Prod.fst).Pairwise (fun x y => x ≤ y)
    ∧ vizDerivedPoints baseline method
        ((dr.filter (fun r => decide (r.compressor = compressor))).filter
          (fun r => decide (r.batch_size = b)))
      = some (ps.filter (fun q => decide (q.1 = b))) := by
  have hps := vizDerivedPoints_some_eq baseline method _ _ h
  have hsorted : (sortByBatch (dr.filter
      (fun r => decide (r.compressor = compressor)))).Pairwise
      (fun a c => a.batch_size ≤ c.batch_size) := by
    rw [sortByBatch]
    exact sorted_sortKey Record.batch_size _
  constructor
  · rw [hps]
    exact pairwise_fst_filterMap Record.batch_size _
      (vizPointFun_fst baseline method) _ hsorted
  · have hcond := (vizDerivedPoints_isSome_iff baseline method _).1 (by rw [h]; rfl)
    have hsome : (vizDerivedPoints baseline method
        ((dr.filter (fun r => decide (r.compressor = compressor))).filter
          (fun r => decide (r.batch_size = b)))).isSome = true := by
      rw [vizDerivedPoints_isSome_iff]
      intro r hr
      exact hcond r ((mem_sortByBatch _ r).2 (List.mem_of_mem_filter hr))
    rcases Option.isSome_iff_exists.1 hsome with ⟨val, hval⟩
    rw [hval]
    congr 1
    rw [vizDerivedPoints_some_eq baseline method _ _ hval, hps,
      ← filterMap_filter_key Record.batch_size _ (vizPointFun_fst baseline method) b,
      sortByBatch,
      filter_sortKey Record.batch_size _ _ (fun x y hx hy => by
        simp only [decide_eq_true_eq] at hx hy
        omega)]

/-- Self-ratio-branch core of C9. -/
theorem selfRatio_sorted_stable (dr : List Record) (compressor method : String)
    (ratios : List ℚ) (b : Nat)
    (h : mapOrRaise (fun r => (r.getMethod method).map (fun mr => mr.compression_ratio))
      (sortByBatch (dr.filter (fun r => decide (r.compressor = compressor))))
      = some ratios) :
    ((sortByBatch (dr.filter (fun r => decide (r.compressor = compressor)))).map
        (fun r => r.batch_size)).Pairwise (fun x y => x ≤ y)
    ∧ selfRatioPairs method ((dr.filter (fun r => decide (r.compressor = compressor))).filter
        (fun r => decide (r.batch_size = b)))
      = some ((((sortByBatch (dr.filter
          (fun r => decide (r.compressor = compressor)))).map
          (fun r => r.batch_size)).zip ratios).filter (fun q => decide (q.1 = b))) := by
  have hsorted : (sortByBatch (dr.filter
      (fun r => decide (r.compressor = compressor)))).Pairwise
      (fun a c => a.batch_size ≤ c.batch_size) := by
    rw [sortByBatch]
    exact sorted_sortKey Record.batch_size _
  have hall : ∀ r ∈ sortByBatch (dr.filter (fun r => decide (r.compressor = compressor))),
      (r.getMethod method).isSome = true := by
    intro r hr
    have := (mapOrRaise_isSome _ _).1 (by rw [h]; rfl) r hr
    simpa using this
  constructor
  · exact List.pairwise_map.2 hsorted
  · have hsome : (selfRatioPairs method
        ((dr.filter (fun r => decide (r.compressor = compressor))).filter
          (fun r => decide (r.batch_size = b)))).isSome = true := by
      rw [selfRatioPairs, mapOrRaise_isSome]
      intro r hr
      simp only [Option.isSome_map']
      exact hall r ((mem_sortByBatch _ r).2 (List.mem_of_mem_filter hr))
    rcases Option.isSome_iff_exists.1 hsome with ⟨val, hval⟩
    rw [hval]
    congr 1
    rw [selfRatioPairs] at hval
    rw [mapOrRaise_eq_some _ _ _ hval, mapOrRaise_eq_some _ _ _ h,
      zip_map_filterMap_self method _ hall,
      ← filterMap_filter_key Record.batch_size _ (selfRatioPair_fst method) b,
      sortByBatch,
      filter_sortKey Record.batch_size _ _ (fun x y hx hy => by
        simp only [decide_eq_true_eq] at hx hy
        omega)]

/-- C9: every extracted series is ordered non-decreasingly in batch size,
with records of equal batch size kept in input order.  For
`presentation_plots.extract_series` the output is the stable sort of the
points built in input order: it is sorted, and for each batch size it lists
exactly the input-order points of that batch size.  For
`visualize_batch_size.extract_compression_ratio_series` (whenever it
succeeds), in each of its three branches, the batch sizes are
non-decreasing and the (batch size, value) pairs of any one batch size are
exactly those computed from the input-order records of that batch size. -/
theorem extracted_series_sorted_stable (results : List Record)
    (dataset compressor method : String)
    (baseline_fn : Option (List Record → String → Nat → Option ℚ))
    (dr : List Record) (bss : List Nat) (rs : List ℚ) (b : Nat)
    (hviz : extract_compression_ratio_series_viz dr compressor method = some (bss, rs)) :
    (extract_series results dataset compressor method baseline_fn).Pairwise
      (fun p q => p.batch_size ≤ q.batch_size)
    ∧ (extract_series results dataset compressor method baseline_fn).filter
        (fun p => decide (p.batch_size = b))
      = (seriesPoints results dataset compressor method baseline_fn).filter
        (fun p => decide (p.batch_size = b))
    ∧ bss.Pairwise (fun x y => x ≤ y)
    ∧ (compressor ∈ vizOtapFamilies →
        vizDerivedPoints (buildBaseline dr (fun r => decide (r.compressor ∈ otlpFamilies)))
          method ((dr.filter (fun r => decide (r.compressor = compressor))).filter
            (fun r => decide (r.batch_size = b)))
        = some ((bss.zip rs).filter (fun q => decide (q.1 = b))))
    ∧ (compressor ∉ vizOtapFamilies → compressor ∈ arrowFamilies →
        vizDerivedPoints (buildBaseline dr (fun r => decide (r.compressor = "tpch_proto")))
          method ((dr.filter (fun r => decide (r.compressor = compressor))).filter
            (fun r => decide (r.batch_size = b)))
        = some ((bss.zip rs).filter (fun q => decide (q.1 = b))))
    ∧ (compressor ∉ vizOtapFamilies → compressor ∉ arrowFamilies →
        selfRatioPairs method ((dr.filter (fun r => decide (r.compressor = compressor))).filter
            (fun r => decide (r.batch_size = b)))
        = some ((bss.zip rs).filter (fun q => decide (q.1 = b)))) := by
  rw [extract_compression_ratio_series_viz] at hviz
  refine ⟨?_, ?_, ?_, ?_, ?_, ?_⟩
  · rw [extract_series]
    exact sorted_sortKey DataPoint.batch_size _
  · rw [extract_series]
    exact filter_sortKey DataPoint.batch_size _ _ (fun x y hx hy => by
      simp only [decide_eq_true_eq] at hx hy
      omega)
  · by_cases h1 : compressor ∈ vizOtapFamilies
    · simp only [if_pos h1] at hviz
      rcases Option.map_eq_some'.1 hviz with ⟨ps, hps, hsplit⟩
      have hfst : bss = ps.map Prod.fst := by
        have h' := congrArg Prod.fst hsplit
        simpa [splitPoints] using h'.symm
      rw [hfst]
      exact (vizDerived_sorted_stable dr _ compressor method ps b hps).1
    · by_cases h2 : compressor ∈ arrowFamilies
      · simp only [if_neg h1, if_pos h2] at hviz
        rcases Option.map_eq_some'.1 hviz with ⟨ps, hps, hsplit⟩
        have hfst : bss = ps.map Prod.fst := by
          have h' := congrArg Prod.fst hsplit
          simpa [splitPoints] using h'.symm
        rw [hfst]
        exact (vizDerived_sorted_stable dr _ compressor method ps b hps).1
      · simp only [if_neg h1, if_neg h2] at hviz
        rcases Option.map_eq_some'.1 hviz with ⟨ratios, hra, heq⟩
        have hfst : bss = (sortByBatch (dr.filter
            (fun r => decide (r.compressor = compressor)))).map
            (fun r => r.batch_size) := by
          have h' := congrArg Prod.fst heq
          simpa using h'.symm
        rw [hfst]
        exact (selfRatio_sorted_stable dr compressor method ratios b hra).1
  · intro h1
    simp only [if_pos h1] at hviz
    rcases Option.map_eq_some'.1 hviz with ⟨ps, hps, hsplit⟩
    have hb1 : (splitPoints ps).1 = bss := by rw [hsplit]
    have hb2 : (splitPoints ps).2 = rs := by rw [hsplit]
    have hzip : bss.zip rs = ps := by
      rw [← hb1, ← hb2]
      exact zip_splitPoints ps
    rw [hzip]
    exact (vizDerived_sorted_stable dr _ compressor method ps b hps).2
  · intro h1 h2
    simp only [if_neg h1, if_pos h2] at hviz
    rcases Option.map_eq_some'.1 hviz with ⟨ps, hps, hsplit⟩
    have hb1 : (splitPoints ps).1 = bss := by rw [hsplit]
    have hb2 : (splitPoints ps).2 = rs := by rw [hsplit]
    have hzip : bss.zip rs = ps := by
      rw [← hb1, ← hb2]
      exact zip_splitPoints ps
    rw [hzip]
    exact (vizDerived_sorted_stable dr _ compressor method ps b hps).2
  · intro h1 h2
    simp only [if_neg h1, if_neg h2] at hviz
    rcases Option.map_eq_some'.1 hviz with ⟨ratios, hra, heq⟩
    have hfst : bss = (sortByBatch (dr.filter
        (fun r => decide (r.compressor = compressor)))).map
        (fun r => r.batch_size) := by
      have h' := congrArg Prod.fst heq
      simpa using h'.symm
    have hrs : rs = ratios := by
      have h' := congrArg Prod.snd heq
      simpa using h'.symm
    rw [hfst, hrs]
    exact (selfRatio_sorted_stable dr compressor method ratios b hra).2

/-- Witness for C9 at a concrete collection, self-ratio branch of the viz
extractor and a presentation-plot extraction with no baseline function. -/
theorem extracted_series_sorted_stable_witness :
    (extract_series [recRef, recCol] "d1" "otlp_metrics" "zstd" none).Pairwise
      (fun p q => p.batch_size ≤ q.batch_size)
    ∧ (extract_series [recRef, recCol] "d1" "otlp_metrics" "zstd" none).filter
        (fun p => decide (p.batch_size = 100))
      = (seriesPoints [recRef, recCol] "d1" "otlp_metrics" "zstd" none).filter
        (fun p => decide (p.batch_size = 100))
    ∧ ([100] : List Nat).Pairwise (fun x y => x ≤ y)
    ∧ ("otlp_metrics" ∈ vizOtapFamilies →
        vizDerivedPoints (buildBaseline [recRef, recCol]
            (fun r => decide (r.compressor ∈ otlpFamilies)))
          "zstd" (([recRef, recCol].filter
            (fun r => decide (r.compressor = "otlp_metrics"))).filter
            (fun r => decide (r.batch_size = 100)))
        = some ((([100] : List Nat).zip ([4] : List ℚ)).filter
            (fun q => decide (q.1 = 100))))
    ∧ ("otlp_metrics" ∉ vizOtapFamilies → "otlp_metrics" ∈ arrowFamilies →
        vizDerivedPoints (buildBaseline [recRef, recCol]
            (fun r => decide (r.compressor = "tpch_proto")))
          "zstd" (([recRef, recCol].filter
            (fun r => decide (r.compressor = "otlp_metrics"))).filter
            (fun r => decide (r.batch_size = 100)))
        = some ((([100] : List Nat).zip ([4] : List ℚ)).filter
            (fun q => decide (q.1 = 100))))
    ∧ ("otlp_metrics" ∉ vizOtapFamilies → "otlp_metrics" ∉ arrowFamilies →
        selfRatioPairs "zstd" (([recRef, recCol].filter
            (fun r => decide (r.compressor = "otlp_metrics"))).filter
            (fun r => decide (r.batch_size = 100)))
        = some ((([100] : List Nat).zip ([4] : List ℚ)).filter
            (fun q => decide (q.1 = 100)))) :=
  extracted_series_sorted_stable [recRef, recCol] "d1" "otlp_metrics" "zstd" none
    [recRef, recCol] [100] [4] 100 (by rfl)

/-! ### C10: e2e speed emits only strictly-positive-time points -/

theorem e2eSpeedPoints_mem (baseline : List (Nat × ℚ)) (compressor method : String)
    (tt : TimeType) :
    ∀ (l : List Record) (ps : List (Nat × ℚ)) (q : Nat × ℚ),
    e2eSpeedPoints baseline compressor method tt l = some ps → q ∈ ps →
    ∃ r ∈ l, r.batch_size = q.1 ∧ ∃ mr, r.getMethod method = some mr
      ∧ 0 < (mr.timeStats tt).avg_ms
      ∧ ∃ B, q.2 = B / (mr.timeStats tt).avg_ms / 1000
  | [], ps, q, h, hq => by
    simp only [e2eSpeedPoints, Option.some.injEq] at h
    rw [← h] at hq
    cases hq
  | r :: rs, ps, q, h, hq => by
    rw [e2eSpeedPoints] at h
    simp only [] at h
    have hstep : ∀ (B : ℚ),
        (match r.getMethod method with
          | none => none
          | some mr =>
            if 0 < (mr.timeStats tt).avg_ms then
              (e2eSpeedPoints baseline compressor method tt rs).map
                (fun ps => (r.batch_size, B / (mr.timeStats tt).avg_ms / 1000) :: ps)
            else e2eSpeedPoints baseline compressor method tt rs) = some ps →
        ∃ r' ∈ r :: rs, r'.batch_size = q.1 ∧ ∃ mr, r'.getMethod method = some mr
          ∧ 0 < (mr.timeStats tt).avg_ms
          ∧ ∃ B', q.2 = B' / (mr.timeStats tt).avg_ms / 1000 := by
      intro B hB
      cases hg : r.getMethod method with
      | none => simp [hg] at hB
      | some mr =>
        simp only [hg] at hB
        by_cases ht : 0 < (mr.timeStats tt).avg_ms
        · rw [if_pos ht] at hB
          rcases Option.map_eq_some'.1 hB with ⟨ps', hps', hcons⟩
          rw [← hcons] at hq
          rcases List.mem_cons.1 hq with hhead | htail
          · exact ⟨r, List.mem_cons_self r rs, (congrArg Prod.fst hhead).symm,
              mr, hg, ht, B, congrArg Prod.snd hhead⟩
          · rcases e2eSpeedPoints_mem baseline compressor method tt rs ps' q
              hps' htail with ⟨r', hr', hbs, mr', hmr', ht', B', hB'⟩
            exact ⟨r', List.mem_cons_of_mem _ hr', hbs, mr', hmr', ht', B', hB'⟩
        · rw [if_neg ht] at hB
          rcases e2eSpeedPoints_mem baseline compressor method tt rs ps q
            hB hq with ⟨r', hr', hbs, mr', hmr', ht', B', hB'⟩
          exact ⟨r', List.mem_cons_of_mem _ hr', hbs, mr', hmr', ht', B', hB'⟩
    cases hd : dictLookup baseline r.batch_size with
    | none =>
      simp only [hd] at h
      by_cases hc : compressor ∈ protoFamilies
      · rw [if_pos hc] at h
        exact hstep r.total_uncompressed_bytes h
      · rw [if_neg hc] at h
        rcases e2eSpeedPoints_mem baseline compressor method tt rs ps q
          h hq with ⟨r', hr', hbs, mr', hmr', ht', B', hB'⟩
        exact ⟨r', List.mem_cons_of_mem _ hr', hbs, mr', hmr', ht', B', hB'⟩
    | some bl =>
      simp only [hd] at h
      exact hstep bl h

/-- C10: the end-to-end speed extraction of `visualize_batch_size` emits a
point only for records whose average time is strictly positive (others are
silently dropped), so every emitted speed is `baseline_bytes / time / 1000`
with a strictly positive denominator; and the zero-time fallback of
`presentation_plots.calc_e2e_throughput` returns `0` instead of dividing
when a time is not strictly positive. -/
theorem e2e_speed_positive_denominator (dr : List Record)
    (compressor method : String) (tt : TimeType) (bss : List Nat) (ss : List ℚ)
    (h : extract_e2e_speed_series dr compressor method tt = some (bss, ss)) :
    (∀ q ∈ bss.zip ss, ∃ r ∈ dr, r.compressor = compressor ∧ r.batch_size = q.1
      ∧ ∃ mr, r.getMethod method = some mr ∧ 0 < (mr.timeStats tt).avg_ms
        ∧ ∃ B, q.2 = B / (mr.timeStats tt).avg_ms / 1000)
    ∧ (∀ (p : DataPoint) (bl : ℚ), p.compression_time_ms ≤ 0 →
        (calc_e2e_throughput p bl).1 = 0)
    ∧ (∀ (p : DataPoint) (bl : ℚ), p.decompression_time_ms ≤ 0 →
        (calc_e2e_throughput p bl).2 = 0) := by
  refine ⟨?_, ?_, ?_⟩
  · intro q hq
    rw [extract_e2e_speed_series] at h
    rcases Option.map_eq_some'.1 h with ⟨ps, hps, hsplit⟩
    have hb1 : (splitPoints ps).1 = bss := by rw [hsplit]
    have hb2 : (splitPoints ps).2 = ss := by rw [hsplit]
    have hzip : bss.zip ss = ps := by
      rw [← hb1, ← hb2]
      exact zip_splitPoints ps
    rw [hzip] at hq
    rcases e2eSpeedPoints_mem _ compressor method tt _ ps q hps hq with
      ⟨r, hr, hbs, mr, hmr, ht, B, hB⟩
    rw [mem_sortByBatch, List.mem_filter] at hr
    exact ⟨r, hr.1, by simpa using hr.2, hbs, mr, hmr, ht, B, hB⟩
  · intro p bl hp
    simp [calc_e2e_throughput, not_lt.2 hp]
  · intro p bl hp
    simp [calc_e2e_throughput, not_lt.2 hp]

/-- Witness for C10: applying the theorem at a concrete collection whose
single matching record has average compression time 2 ms yields the emitted
point (100, 1000/2/1000) with a strictly positive denominator. -/
theorem e2e_speed_positive_denominator_witness :
    ∃ r ∈ [recRef, recCol], r.compressor = "otlp_metrics"
      ∧ r.batch_size = (100, (1 : ℚ)/2).1
      ∧ ∃ mr, r.getMethod "zstd" = some mr
        ∧ 0 < (mr.timeStats TimeType.compression).avg_ms
        ∧ ∃ B, (100, (1 : ℚ)/2).2 = B / (mr.timeStats TimeType.compression).avg_ms / 1000 :=
  (e2e_speed_positive_denominator [recRef, recCol] "otlp_metrics" "zstd"
    TimeType.compression [100] [(1 : ℚ)/2]
    (by
      simp +decide [extract_e2e_speed_series, e2eSpeedPoints, buildBaseline,
        dictInsert, dictLookup, sortByBatch, splitPoints, recRef, recCol,
        protoFamilies, otlpFamilies, tpchSpeedFamilies, Record.getMethod,
        mrA, mrB, stA, MethodResult.timeStats]
      norm_num)).1
    (100, (1 : ℚ)/2)
    (by simp)

end RowCol
